import Mathlib

/-!
Shallow embedding of the per-user resource-ownership and filtering core of the
recipe-app-api repository.

The repository ships only the test suites, the admin registration and the
user-facing URL wiring under `src/app`; the model layer (`core/models.py`), the
catalog views (`recipe/views.py`) and the serializers that decide the claims
below are not part of the provided sources.  Every definition that stands in
for such a missing module is therefore modelled from the specification's own
words (its doc comment says so and names the missing module), and all results
about it are results about that spec-faithful model.
-/

namespace RecipeApp

/-- Modelled from the spec: a Tag or Ingredient catalog record
(`core/models.py` is absent from the sources): `{id, name, owner : User}`,
owned by exactly one user.  Users are identified by a natural-number id. -/
structure CatalogRecord where
  id : Nat
  name : String
  owner : Nat
deriving DecidableEq, Repr

/-- Modelled from the spec: a Recipe (`core/models.py` is absent from the
sources): `{id, title, time_minutes, price, owner, tags, ingredients}`, with
the tag and ingredient sets stored as lists of catalog-record ids. -/
structure Recipe where
  id : Nat
  title : String
  time_minutes : Int
  price : Rat
  owner : Nat
  tags : List Nat
  ingredients : List Nat
deriving DecidableEq, Repr

/-- Modelled from the spec: the persistent store seen by one catalog kind
(Tag or Ingredient) together with the recipe store.  Records are kept in
insertion order; `nextId` supplies fresh ids. -/
structure State where
  nextId : Nat
  catalog : List CatalogRecord
  recipes : List Recipe
deriving DecidableEq, Repr

/-- Modelled from the spec: a rejected operation carries the failing field
("surfaced to the caller as a rejected operation with the failing field
identified"). -/
structure ValidationError where
  field : String
deriving DecidableEq, Repr

/-- Structural lexicographic comparison on lists of characters.  This is the
computable form of the character-list order underlying the String order; it
is proved equivalent to the standard `<` on `List Char` below. -/
def charListLt : List Char → List Char → Bool
  | _, [] => false
  | [], _ :: _ => true
  | a :: as, b :: bs => if a < b then true else if b < a then false else charListLt as bs

/-- Computable name comparison on strings (lexicographic, case-sensitive),
used by the ordering of catalog listings. -/
def nameLt (a b : String) : Bool := charListLt a.data b.data

/-- Stable insertion of a record into a list sorted by name descending:
the record goes in front of the first strictly smaller name, after equal
names (ties keep insertion order). -/
def insertByNameDesc (r : CatalogRecord) : List CatalogRecord → List CatalogRecord
  | [] => [r]
  | x :: xs => if nameLt x.name r.name then r :: x :: xs else x :: insertByNameDesc r xs

/-- Stable sort of catalog records by name, descending. -/
def sortByNameDesc (l : List CatalogRecord) : List CatalogRecord :=
  l.foldr insertByNameDesc []

/-- Modelled from the spec: whether record `r` is referenced by at least one
recipe belonging to user `u`'s recipe set (`recipe/views.py` is absent from
the sources).  `refs` selects the tag or ingredient id set of a recipe. -/
def isAssigned (refs : Recipe → List Nat) (st : State) (u : Nat) (r : CatalogRecord) : Bool :=
  st.recipes.any (fun rcp => rcp.owner == u && (refs rcp).contains r.id)

/-- Modelled from the spec: `list(user, assigned_only)` on a catalog
(`recipe/views.py` is absent from the sources).  Filters the catalog down to
`owner == user`; when `assigned_only` is true further restricts to records
referenced by at least one of that user's recipes; the result is
duplicate-free and ordered by name descending. -/
def listCatalog (refs : Recipe → List Nat) (st : State) (u : Nat) (assigned_only : Bool) :
    List CatalogRecord :=
  let owned := st.catalog.filter (fun r => r.owner == u)
  let selected := if assigned_only then owned.filter (isAssigned refs st u) else owned
  sortByNameDesc selected.dedup

/-- The Tag catalog listing: `listCatalog` over the tag id sets of recipes. -/
def listTags (st : State) (u : Nat) (assigned_only : Bool) : List CatalogRecord :=
  listCatalog Recipe.tags st u assigned_only

/-- The Ingredient catalog listing: `listCatalog` over the ingredient id sets
of recipes. -/
def listIngredients (st : State) (u : Nat) (assigned_only : Bool) : List CatalogRecord :=
  listCatalog Recipe.ingredients st u assigned_only

/-- Modelled from the spec: `create(user, name)` on a catalog
(`recipe/serializers.py` and `core/models.py` are absent from the sources).
Fails with a validation error on the `name` field when the name is empty —
the only constraint this core enforces is non-emptiness — and otherwise
appends a fresh record owned by the caller.  On failure the store is
returned unchanged. -/
def createCatalogRecord (st : State) (u : Nat) (nm : String) :
    Option ValidationError × State :=
  if nm = "" then (some ⟨"name"⟩, st)
  else (none,
    { st with
      nextId := st.nextId + 1
      catalog := st.catalog ++ [⟨st.nextId, nm, u⟩] })

/-- Modelled from the spec: `create(user, title, time_minutes, price, tags,
ingredients)` on the recipe store (`core/models.py` and
`recipe/serializers.py` are absent from the sources).  An empty title, a
negative `time_minutes` or a negative `price` is rejected with the failing
field identified; there is no upper bound on `time_minutes` or `price`.
On failure the store is returned unchanged. -/
def createRecipe (st : State) (u : Nat) (title : String) (time_minutes : Int)
    (price : Rat) (tagIds : List Nat) (ingredientIds : List Nat) :
    Option ValidationError × State :=
  if title = "" then (some ⟨"title"⟩, st)
  else if time_minutes < 0 then (some ⟨"time_minutes"⟩, st)
  else if price < 0 then (some ⟨"price"⟩, st)
  else (none,
    { st with
      nextId := st.nextId + 1
      recipes := st.recipes ++
        [⟨st.nextId, title, time_minutes, price, u, tagIds, ingredientIds⟩] })

/-- Modelled from the spec: a stored user account (`core/models.py` is absent
from the sources). -/
structure User where
  email : String
  password : String
  name : String
deriving DecidableEq, Repr

/-- Modelled from the spec: the identity store. -/
structure UserState where
  users : List User
deriving DecidableEq, Repr

/-- Modelled from the spec: case-insensitive normalization of an email
(`core/models.py` is absent from the sources): the stored email is the
supplied email converted to lowercase. -/
def normalize_email (e : String) : String := e.toLower

/-- Modelled from the spec: the user-manager creation call
`create_user(email, password, name)` (`core/models.py` is absent from the
sources).  A missing (empty) email is an error; otherwise the user is stored
with the normalized email. -/
def create_user (st : UserState) (email password nm : String) :
    Option (User × UserState) :=
  if email = "" then none
  else
    let u : User := ⟨normalize_email email, password, nm⟩
    some (u, ⟨st.users ++ [u]⟩)

/-- Modelled from the spec: the user-creation endpoint
(`user/serializers.py` is absent from the sources), as documented by its
test suite: a password of 5 or fewer characters is rejected with HTTP 400,
a duplicate or missing email is rejected with HTTP 400, and on any rejection
the identity store is left unchanged; a valid payload stores the user and
answers HTTP 201. -/
def createUserEndpoint (st : UserState) (email password nm : String) :
    Nat × UserState :=
  if password.length ≤ 5 then (400, st)
  else if st.users.any (fun u => u.email == normalize_email email) then (400, st)
  else
    match create_user st email password nm with
    | some (_, st2) => (201, st2)
    | none => (400, st)

/-- The empty store, used by the concrete scenarios. -/
def emptyState : State := ⟨0, [], []⟩

/-- The store after user 0 creates the ingredients "Pequi" and then
"Pimenta" starting from the empty store (the ordering scenario of the
spec). -/
def pequiState : State :=
  (createCatalogRecord (createCatalogRecord emptyState 0 "Pequi").2 0 "Pimenta").2

/-- The structural comparator agrees with the standard lexicographic order on
character lists. -/
theorem charListLt_iff : ∀ (as bs : List Char), charListLt as bs = true ↔ as < bs
  | as, [] => by
    constructor
    · intro h
      exfalso
      cases as <;> simp [charListLt] at h
    · intro h
      exact absurd h (List.Lex.not_nil_right _ _)
  | [], b :: bs => by
    constructor
    · intro _
      exact List.Lex.nil
    · intro _
      rfl
  | a :: as, b :: bs => by
    constructor
    · intro h
      rcases lt_trichotomy a b with hab | hab | hab
      · exact List.Lex.rel hab
      · subst hab
        simp only [charListLt, lt_irrefl, if_false] at h
        exact List.Lex.cons ((charListLt_iff as bs).mp h)
      · simp [charListLt, lt_asymm hab, hab] at h
    · intro h
      cases h with
      | cons h2 =>
        simp only [charListLt, lt_irrefl, if_false]
        exact (charListLt_iff as bs).mpr h2
      | rel h2 =>
        simp [charListLt, h2]

/-- The name comparator agrees with the standard order on strings. -/
theorem nameLt_iff (a b : String) : nameLt a b = true ↔ a < b := by
  rw [String.lt_iff_toList_lt]
  exact charListLt_iff a.data b.data

/-- Inserting a record is a permutation of consing it. -/
theorem perm_insertByNameDesc (r : CatalogRecord) :
    ∀ l : List CatalogRecord, (insertByNameDesc r l).Perm (r :: l)
  | [] => List.Perm.refl _
  | x :: xs => by
    simp only [insertByNameDesc]
    by_cases h : nameLt x.name r.name = true
    · simp [h]
    · simp only [h, if_false]
      exact ((perm_insertByNameDesc r xs).cons x).trans (List.Perm.swap r x xs)

/-- Sorting is a permutation. -/
theorem perm_sortByNameDesc : ∀ l : List CatalogRecord, (sortByNameDesc l).Perm l
  | [] => List.Perm.refl _
  | a :: l =>
    (perm_insertByNameDesc a (sortByNameDesc l)).trans ((perm_sortByNameDesc l).cons a)

/-- Insertion preserves the name-descending pairwise invariant. -/
theorem pairwise_insertByNameDesc (r : CatalogRecord) :
    ∀ l : List CatalogRecord,
      l.Pairwise (fun a b => b.name ≤ a.name) →
      (insertByNameDesc r l).Pairwise (fun a b => b.name ≤ a.name)
  | [], _ => by simp [insertByNameDesc]
  | x :: xs, hp => by
    simp only [insertByNameDesc]
    rcases List.pairwise_cons.mp hp with ⟨hx, hxs⟩
    by_cases h : nameLt x.name r.name = true
    · have hxr : x.name < r.name := (nameLt_iff _ _).mp h
      simp only [h, if_true]
      refine List.pairwise_cons.mpr ⟨?_, hp⟩
      intro y hy
      rcases List.mem_cons.mp hy with rfl | hy2
      · exact le_of_lt hxr
      · exact le_trans (hx y hy2) (le_of_lt hxr)
    · have hrx : r.name ≤ x.name := not_lt.mp (fun hlt => h ((nameLt_iff _ _).mpr hlt))
      simp only [h, if_false]
      refine List.pairwise_cons.mpr ⟨?_, pairwise_insertByNameDesc r xs hxs⟩
      intro y hy
      have hy3 : y = r ∨ y ∈ xs :=
        List.mem_cons.mp ((perm_insertByNameDesc r xs).mem_iff.mp hy)
      rcases hy3 with rfl | hy4
      · exact hrx
      · exact hx y hy4

/-- The sorted output is pairwise name-descending. -/
theorem pairwise_sortByNameDesc : ∀ l : List CatalogRecord,
    (sortByNameDesc l).Pairwise (fun a b => b.name ≤ a.name)
  | [] => List.Pairwise.nil
  | a :: l => pairwise_insertByNameDesc a (sortByNameDesc l) (pairwise_sortByNameDesc l)

/-- Membership in a catalog listing, characterised: the record is in the
catalog, owned by the requesting user, and — in assigned-only mode — assigned
to one of that user's recipes. -/
theorem mem_listCatalog (refs : Recipe → List Nat) (st : State) (u : Nat) (b : Bool)
    (r : CatalogRecord) :
    r ∈ listCatalog refs st u b ↔
      r ∈ st.catalog ∧ r.owner = u ∧ (b = true → isAssigned refs st u r = true) := by
  have h1 : r ∈ listCatalog refs st u b ↔
      r ∈ (if b = true
            then (st.catalog.filter (fun x => x.owner == u)).filter (isAssigned refs st u)
            else st.catalog.filter (fun x => x.owner == u)) :=
    Iff.trans (perm_sortByNameDesc _).mem_iff List.mem_dedup
  rw [h1]
  cases b
  · simp [List.mem_filter]
  · simp [List.mem_filter, and_assoc]
    tauto

/-- A catalog listing never repeats a record. -/
theorem nodup_listCatalog (refs : Recipe → List Nat) (st : State) (u : Nat) (b : Bool) :
    (listCatalog refs st u b).Nodup :=
  ((perm_sortByNameDesc _).nodup_iff).mpr (List.nodup_dedup _)

/-- Assignment, characterised: some recipe of the user references the
record's id. -/
theorem isAssigned_iff (refs : Recipe → List Nat) (st : State) (u : Nat)
    (r : CatalogRecord) :
    isAssigned refs st u r = true ↔
      ∃ rcp ∈ st.recipes, rcp.owner = u ∧ r.id ∈ refs rcp := by
  unfold isAssigned
  rw [List.any_eq_true]
  constructor
  · rintro ⟨rcp, hmem, hc⟩
    rw [Bool.and_eq_true] at hc
    exact ⟨rcp, hmem, beq_iff_eq.mp hc.1, by simpa using hc.2⟩
  · rintro ⟨rcp, hmem, ho, hid⟩
    exact ⟨rcp, hmem, by simp [ho, hid]⟩

/-- C1: for every two distinct users U1 and U2 and every Tag or Ingredient
record R owned by U2, a list query issued on behalf of U1 (with any value of
assigned_only) never contains R, even when R's name equals the name of one
of U1's own records. -/
theorem claim_C1 (refs : Recipe → List Nat) (st : State) (u1 u2 : Nat)
    (r : CatalogRecord) (b : Bool) (hne : u1 ≠ u2) (hown : r.owner = u2) :
    r ∉ listCatalog refs st u1 b := by
  intro hmem
  have h := ((mem_listCatalog refs st u1 b r).mp hmem).2.1
  rw [h] at hown
  exact hne hown

theorem claim_C1_witness :
    ((0 : Nat) ≠ 1 ∧ (⟨0, "Pequi", 1⟩ : CatalogRecord).owner = 1) ∧
      (⟨0, "Pequi", 1⟩ : CatalogRecord) ∉
        listCatalog Recipe.tags ⟨1, [⟨0, "Pequi", 1⟩], []⟩ 0 true :=
  ⟨⟨by decide, rfl⟩,
    claim_C1 Recipe.tags ⟨1, [⟨0, "Pequi", 1⟩], []⟩ 0 1 ⟨0, "Pequi", 1⟩ true
      (by decide) rfl⟩

/-- C2: for every user U, list(U, assigned_only=true) over a catalog returns
exactly those records owned by U that appear in the tag/ingredient set of at
least one of U's recipes; a record of U's that no recipe references is
excluded, while list(U, false) includes it. -/
theorem claim_C2 (refs : Recipe → List Nat) (st : State) (u : Nat)
    (r : CatalogRecord) :
    (r ∈ listCatalog refs st u true ↔
        r ∈ st.catalog ∧ r.owner = u ∧
          ∃ rcp ∈ st.recipes, rcp.owner = u ∧ r.id ∈ refs rcp) ∧
    (r ∈ listCatalog refs st u false ↔ r ∈ st.catalog ∧ r.owner = u) := by
  constructor
  · rw [mem_listCatalog]
    simp [isAssigned_iff]
  · rw [mem_listCatalog]
    simp

/-- C3: for every user U and every catalog record of U referenced by at least
two distinct recipes of U, list(U, assigned_only=true) contains that record
exactly once. -/
theorem claim_C3 (refs : Recipe → List Nat) (st : State) (u : Nat)
    (r : CatalogRecord) (rcp1 rcp2 : Recipe)
    (h1 : rcp1 ∈ st.recipes) (h2 : rcp2 ∈ st.recipes) (hne : rcp1 ≠ rcp2)
    (ho1 : rcp1.owner = u) (ho2 : rcp2.owner = u)
    (hr1 : r.id ∈ refs rcp1) (hr2 : r.id ∈ refs rcp2)
    (hmem : r ∈ st.catalog) (hown : r.owner = u) :
    (listCatalog refs st u true).count r = 1 := by
  have hm : r ∈ listCatalog refs st u true :=
    (mem_listCatalog refs st u true r).mpr
      ⟨hmem, hown, fun _ => (isAssigned_iff refs st u r).mpr ⟨rcp1, h1, ho1, hr1⟩⟩
  exact List.count_eq_one_of_mem (nodup_listCatalog refs st u true) hm

theorem claim_C3_witness :
    ((⟨1, "Doce de Figo", 145, 17, 0, [0], []⟩ : Recipe) ≠
        ⟨2, "Doce de Leite", 290, 12, 0, [0], []⟩) ∧
      (listCatalog Recipe.tags
          ⟨3, [⟨0, "Doce", 0⟩],
            [⟨1, "Doce de Figo", 145, 17, 0, [0], []⟩,
             ⟨2, "Doce de Leite", 290, 12, 0, [0], []⟩]⟩ 0 true).count
        ⟨0, "Doce", 0⟩ = 1 :=
  ⟨by decide,
    claim_C3 Recipe.tags
      ⟨3, [⟨0, "Doce", 0⟩],
        [⟨1, "Doce de Figo", 145, 17, 0, [0], []⟩,
         ⟨2, "Doce de Leite", 290, 12, 0, [0], []⟩]⟩ 0
      ⟨0, "Doce", 0⟩
      ⟨1, "Doce de Figo", 145, 17, 0, [0], []⟩
      ⟨2, "Doce de Leite", 290, 12, 0, [0], []⟩
      (by decide) (by decide) (by decide) rfl rfl (by decide) (by decide)
      (by decide) rfl⟩

/-- C4: for every user U, a catalog record owned by U that is referenced
only by recipes belonging to a different user (and by no recipe of U) is not
contained in list(U, assigned_only=true). -/
theorem claim_C4 (refs : Recipe → List Nat) (st : State) (u : Nat)
    (r : CatalogRecord) (hown : r.owner = u)
    (hforeign : ∀ rcp ∈ st.recipes, r.id ∈ refs rcp → rcp.owner ≠ u) :
    r ∉ listCatalog refs st u true := by
  intro hmem
  rcases (mem_listCatalog refs st u true r).mp hmem with ⟨-, -, hass⟩
  rcases (isAssigned_iff refs st u r).mp (hass rfl) with ⟨rcp, hm, ho, hid⟩
  exact hforeign rcp hm hid ho

theorem claim_C4_witness :
    ((⟨0, "Sal", 0⟩ : CatalogRecord).owner = 0 ∧
      (∀ rcp ∈ ([⟨1, "Sopa", 30, 5, 1, [], [0]⟩] : List Recipe),
        (0 : Nat) ∈ rcp.ingredients → rcp.owner ≠ 0)) ∧
      (⟨0, "Sal", 0⟩ : CatalogRecord) ∉
        listCatalog Recipe.ingredients
          ⟨2, [⟨0, "Sal", 0⟩], [⟨1, "Sopa", 30, 5, 1, [], [0]⟩]⟩ 0 true :=
  ⟨⟨rfl, by decide⟩,
    claim_C4 Recipe.ingredients
      ⟨2, [⟨0, "Sal", 0⟩], [⟨1, "Sopa", 30, 5, 1, [], [0]⟩]⟩ 0 ⟨0, "Sal", 0⟩
      rfl (by decide)⟩

/-- C5: for every user U, the sequence returned by list(U,
assigned_only=false) is sorted by name in descending order; in particular,
after U creates the ingredients "Pequi" and "Pimenta", the list returns
exactly ["Pimenta", "Pequi"] in that order. -/
theorem claim_C5 :
    (∀ (refs : Recipe → List Nat) (st : State) (u : Nat),
        (listCatalog refs st u false).Pairwise (fun a b => b.name ≤ a.name)) ∧
      (listCatalog Recipe.ingredients pequiState 0 false).map
          (fun r => r.name) = ["Pimenta", "Pequi"] := by
  constructor
  · intro refs st u
    exact pairwise_sortByNameDesc _
  · decide

/-- C6: for every user U, create(U, name) on a catalog fails with a
validation error on the name field whenever the name is the empty string,
and the failed creation does not add any record to the catalog. -/
theorem claim_C6 (st : State) (u : Nat) :
    createCatalogRecord st u "" = (some ⟨"name"⟩, st) ∧
      (createCatalogRecord st u "").2.catalog = st.catalog := by
  constructor <;> simp [createCatalogRecord]

/-- C7: for every user U and non-empty name X not previously created by U,
performing create(U, X) and then list(U, assigned_only=false) yields a
sequence containing exactly one record named X and owned by U. -/
theorem claim_C7 (refs : Recipe → List Nat) (st : State) (u : Nat) (nm : String)
    (hnm : nm ≠ "")
    (hfresh : ∀ r ∈ st.catalog, ¬(r.name = nm ∧ r.owner = u)) :
    (listCatalog refs (createCatalogRecord st u nm).2 u false).countP
      (fun r => r.name == nm && r.owner == u) = 1 := by
  have hstate : (createCatalogRecord st u nm).2 =
      { st with
        nextId := st.nextId + 1
        catalog := st.catalog ++ [⟨st.nextId, nm, u⟩] } := by
    simp [createCatalogRecord, hnm]
  rw [hstate]
  have hperm :
      (listCatalog refs
          { st with
            nextId := st.nextId + 1
            catalog := st.catalog ++ [(⟨st.nextId, nm, u⟩ : CatalogRecord)] } u
          false).countP
        (fun r : CatalogRecord => r.name == nm && r.owner == u) =
      (((st.catalog ++ [(⟨st.nextId, nm, u⟩ : CatalogRecord)]).filter
          (fun r : CatalogRecord => r.owner == u)).dedup).countP
        (fun r : CatalogRecord => r.name == nm && r.owner == u) :=
    (perm_sortByNameDesc _).countP_eq _
  rw [hperm]
  have hmemL : (⟨st.nextId, nm, u⟩ : CatalogRecord) ∈
      ((st.catalog ++ [(⟨st.nextId, nm, u⟩ : CatalogRecord)]).filter
        (fun r : CatalogRecord => r.owner == u)).dedup := by
    rw [List.mem_dedup, List.mem_filter]
    exact ⟨List.mem_append_right _ (List.mem_singleton.mpr rfl), by simp⟩
  have hchar : ∀ x ∈ ((st.catalog ++ [(⟨st.nextId, nm, u⟩ : CatalogRecord)]).filter
      (fun r : CatalogRecord => r.owner == u)).dedup,
      ((fun r : CatalogRecord => r.name == nm && r.owner == u) x) = true ↔
        (x == (⟨st.nextId, nm, u⟩ : CatalogRecord)) = true := by
    intro x hx
    rw [List.mem_dedup, List.mem_filter] at hx
    constructor
    · intro hpx
      rw [Bool.and_eq_true, beq_iff_eq, beq_iff_eq] at hpx
      rcases List.mem_append.mp hx.1 with hin | hin
      · exact absurd ⟨hpx.1, hpx.2⟩ (hfresh x hin)
      · rw [beq_iff_eq]
        exact List.mem_singleton.mp hin
    · intro hxe
      rw [beq_iff_eq] at hxe
      subst hxe
      simp
  rw [List.countP_congr hchar]
  exact List.count_eq_one_of_mem (List.nodup_dedup _) hmemL

theorem claim_C7_witness :
    (("Pequi" : String) ≠ "" ∧
      (∀ r ∈ emptyState.catalog, ¬(r.name = "Pequi" ∧ r.owner = 0))) ∧
      (listCatalog Recipe.tags (createCatalogRecord emptyState 0 "Pequi").2 0
          false).countP (fun r => r.name == "Pequi" && r.owner == 0) = 1 :=
  ⟨⟨by decide, by simp [emptyState]⟩,
    claim_C7 Recipe.tags emptyState 0 "Pequi" (by decide) (by simp [emptyState])⟩

/-- C8: for every registration input, the email stored on the created User
is the case-insensitive normalization of the supplied email: the stored
email equals the supplied email converted to lowercase. -/
theorem claim_C8 (st : UserState) (email pwd nm : String) (he : email ≠ "") :
    ∃ u st2, create_user st email pwd nm = some (u, st2) ∧
      u.email = email.toLower ∧ st2.users = st.users ++ [u] := by
  refine ⟨⟨normalize_email email, pwd, nm⟩,
    ⟨st.users ++ [⟨normalize_email email, pwd, nm⟩]⟩, ?_, rfl, rfl⟩
  simp [create_user, he]

theorem claim_C8_witness :
    ("test@TEST.COM" : String) ≠ "" ∧
      ∃ u st2,
        create_user ⟨[]⟩ "test@TEST.COM" "StrongPassword123" "Test" =
          some (u, st2) ∧
        u.email = ("test@TEST.COM" : String).toLower ∧
        st2.users = (⟨[]⟩ : UserState).users ++ [u] :=
  ⟨by decide, claim_C8 ⟨[]⟩ "test@TEST.COM" "StrongPassword123" "Test" (by decide)⟩

/-- C9: for every user U, recipe creation rejects any call in which
time_minutes or price is negative with a validation error naming the failing
field, and is never silently corrected, while imposing no upper bound on
either value: every call with non-negative time and price succeeds. -/
theorem claim_C9 (st : State) (u : Nat) (title : String) (t : Int) (p : Rat)
    (tagIds ingredientIds : List Nat) (htitle : title ≠ "") :
    (t < 0 →
      createRecipe st u title t p tagIds ingredientIds =
        (some ⟨"time_minutes"⟩, st)) ∧
    (0 ≤ t → p < 0 →
      createRecipe st u title t p tagIds ingredientIds = (some ⟨"price"⟩, st)) ∧
    (0 ≤ t → 0 ≤ p → ∃ rcp : Recipe,
      createRecipe st u title t p tagIds ingredientIds =
        (none, { st with nextId := st.nextId + 1, recipes := st.recipes ++ [rcp] }) ∧
      rcp.time_minutes = t ∧ rcp.price = p) := by
  refine ⟨?_, ?_, ?_⟩
  · intro ht
    simp [createRecipe, htitle, ht]
  · intro ht hp
    simp [createRecipe, htitle, not_lt.mpr ht, hp]
  · intro ht hp
    refine ⟨⟨st.nextId, title, t, p, u, tagIds, ingredientIds⟩, ?_, rfl, rfl⟩
    simp [createRecipe, htitle, not_lt.mpr ht, not_lt.mpr hp]

theorem claim_C9_witness :
    ("Bolo de Chocolate" : String) ≠ "" ∧
      createRecipe emptyState 0 "Bolo de Chocolate" (-1) 18 [] [] =
        (some ⟨"time_minutes"⟩, emptyState) ∧
      createRecipe emptyState 0 "Bolo de Chocolate" 120 (-1) [] [] =
        (some ⟨"price"⟩, emptyState) ∧
      ∃ rcp : Recipe,
        createRecipe emptyState 0 "Bolo de Chocolate" 1000000 1000000 [] [] =
          (none,
            { emptyState with
              nextId := emptyState.nextId + 1
              recipes := emptyState.recipes ++ [rcp] }) ∧
        rcp.time_minutes = 1000000 ∧ rcp.price = 1000000 :=
  ⟨by decide,
    (claim_C9 emptyState 0 "Bolo de Chocolate" (-1) 18 [] [] (by decide)).1
      (by decide),
    (claim_C9 emptyState 0 "Bolo de Chocolate" 120 (-1) [] [] (by decide)).2.1
      (by decide) (by decide),
    (claim_C9 emptyState 0 "Bolo de Chocolate" 1000000 1000000 [] []
        (by decide)).2.2 (by decide) (by decide)⟩

/-- C10: for every registration request whose password has 5 or fewer
characters, the user-creation endpoint responds with HTTP 400 and leaves
the identity store unchanged: no User with the supplied email exists
afterwards when none existed before. -/
theorem claim_C10 (st : UserState) (email pwd nm : String)
    (hp : pwd.length ≤ 5) :
    createUserEndpoint st email pwd nm = (400, st) ∧
      ((∀ u ∈ st.users, u.email ≠ email) →
        ∀ u ∈ (createUserEndpoint st email pwd nm).2.users, u.email ≠ email) := by
  have h : createUserEndpoint st email pwd nm = (400, st) := by
    simp [createUserEndpoint, hp]
  refine ⟨h, fun hnone => ?_⟩
  rw [h]
  exact hnone

theorem claim_C10_witness :
    ("than" : String).length ≤ 5 ∧
      createUserEndpoint ⟨[]⟩ "thanos@avengers.com" "than" "Thanos" =
        (400, ⟨[]⟩) :=
  ⟨by decide,
    (claim_C10 ⟨[]⟩ "thanos@avengers.com" "than" "Thanos" (by decide)).1⟩

end RecipeApp
